import Mathlib

/-!
Verification of the settlement-computation core of the `wesplit` shared-expense
tracker (`src/convex/balances.ts`) against its natural-language specification.

Monetary values are embedded as exact rationals (`ℚ`); the JavaScript source
computes in IEEE floating point, and the specification states all monetary
claims up to an explicit 0.01 tolerance, so exact rational arithmetic is the
intended idealisation.  Member identities (Convex document ids) are opaque
stable tokens; they are embedded as `Nat`.  JavaScript `Math.round` rounds
half toward positive infinity, embedded as `jsRound`.  A JavaScript division
whose divisor is zero yields a non-finite value (`Infinity` or `NaN`); where
such a division can occur in the source (`getGroupSummary`), division is
embedded as `jsDiv : ℚ → ℚ → Option ℚ` with `none` standing for the
non-finite outcome.
-/

namespace WeSplit

/-- A group member: `_id`, `name` and `isActive` as read by the balances
queries (`member._id`, `member.name`, `member.isActive`). -/
structure Member where
  id : Nat
  name : String
  isActive : Bool
deriving DecidableEq

/-- One entry of `expense.splitDetails`: a participant id and a numeric
value (an exact amount or a percentage, depending on the split type). -/
structure SplitDetail where
  memberId : Nat
  value : ℚ
deriving DecidableEq

/-- An expense as read by the balances queries: `amount`, `paidBy`,
`splitAmong`, `splitType` (a runtime string tag), optional `splitDetails`
and optional `category`. -/
structure Expense where
  amount : ℚ
  paidBy : Nat
  splitAmong : List Nat
  splitType : String
  splitDetails : Option (List SplitDetail)
  category : Option String
deriving DecidableEq

/-- A settlement record: `fromMember` pays `toMember` the given `amount`. -/
structure Settlement where
  fromMember : Nat
  toMember : Nat
  amount : ℚ
deriving DecidableEq

/-- A group document; only `name` is read by `getGroupSummary`. -/
structure Group where
  name : String
deriving DecidableEq

/-- The per-member record returned by `getMemberBalances`. -/
structure MemberBalance where
  memberId : Nat
  memberName : String
  totalPaid : ℚ
  totalOwes : ℚ
  balance : ℚ
deriving DecidableEq

/-- A directed debt as returned by `getDetailedDebts`, and equally a
settlement suggestion as returned by `getOptimizedSettlements` (the source
uses the same record shape `{from, fromName, to, toName, amount}` for both;
`from` is a Lean keyword, so the fields are named `fromId` / `toId`). -/
structure DirectedDebt where
  fromId : Nat
  fromName : String
  toId : Nat
  toName : String
  amount : ℚ
deriving DecidableEq

/-- A net-balance entry of `getOptimizedSettlements`
(`{memberId, name, balance}`). -/
structure NetBalance where
  memberId : Nat
  name : String
  balance : ℚ
deriving DecidableEq

/-- JavaScript `Math.round`: rounds half toward positive infinity. -/
def jsRound (x : ℚ) : ℤ := ⌊x + 1 / 2⌋

/-- `Math.round(x * 100) / 100`, the source's rounding to two decimals. -/
def round2 (x : ℚ) : ℚ := (jsRound (x * 100) : ℚ) / 100

/-- JavaScript division on finite operands: a zero divisor produces a
non-finite result (`Infinity` or `NaN`), modelled as `none`. -/
def jsDiv (a b : ℚ) : Option ℚ := if b = 0 then none else some (a / b)

/-- `calculateExpenseSplit` (src/convex/balances.ts lines 6–39): what one
member owes for one expense.  Members not in `splitAmong` owe 0; `equal`
divides the amount by `splitAmong.length`; `exact` looks up the member's
detail value (0 when absent); `percentage` is `amount * value / 100` for the
looked-up detail (0 when absent); any other tag falls to the `default`
branch. -/
def calculateExpenseSplit (expense : Expense) (memberId : Nat) : ℚ :=
  if memberId ∉ expense.splitAmong then 0
  else
    match expense.splitType with
    | "equal" => expense.amount / expense.splitAmong.length
    | "exact" =>
        match expense.splitDetails.bind
            (List.find? fun d => d.memberId == memberId) with
        | some exactDetail => exactDetail.value
        | none => 0
    | "percentage" =>
        match expense.splitDetails.bind
            (List.find? fun d => d.memberId == memberId) with
        | some percentDetail => expense.amount * percentDetail.value / 100
        | none => 0
    | _ => 0

/-- `getMemberBalances` (lines 61–99): per member, fold the expenses
(`totalPaid += amount` when the member paid; `totalOwes +=` the member's
split share), then the settlements (`totalPaid += amount` when the member is
`fromMember`; `totalOwes += amount` when the member is `toMember`), and
report `balance = totalPaid - totalOwes`. -/
def getMemberBalances (members : List Member) (expenses : List Expense)
    (settlements : List Settlement) : List MemberBalance :=
  members.map fun member =>
    let afterExpenses := expenses.foldl
      (fun acc expense =>
        ((if expense.paidBy = member.id then acc.1 + expense.amount else acc.1),
         acc.2 + calculateExpenseSplit expense member.id))
      ((0 : ℚ), (0 : ℚ))
    let totals := settlements.foldl
      (fun acc settlement =>
        ((if settlement.fromMember = member.id then acc.1 + settlement.amount
          else acc.1),
         (if settlement.toMember = member.id then acc.2 + settlement.amount
          else acc.2)))
      afterExpenses
    { memberId := member.id
      memberName := member.name
      totalPaid := totals.1
      totalOwes := totals.2
      balance := totals.1 - totals.2 }

/-- Pointwise update of the debt matrix: the functional reading of the
JavaScript assignment `debts[a][b] = v`. -/
def matUpdate (debts : Nat → Nat → ℚ) (a b : Nat) (v : ℚ) : Nat → Nat → ℚ :=
  fun x y => if x = a ∧ y = b then v else debts x y

/-- One expense's pass of the matrix-building loop (lines 134–143): for each
`memberId` in `splitAmong` other than the payer,
`debts[memberId][payerId] += calculateExpenseSplit(expense, memberId)`. -/
def applyExpenseDebts (debts : Nat → Nat → ℚ) (expense : Expense) :
    Nat → Nat → ℚ :=
  expense.splitAmong.foldl
    (fun d memberId =>
      if memberId ≠ expense.paidBy then
        matUpdate d memberId expense.paidBy
          (d memberId expense.paidBy + calculateExpenseSplit expense memberId)
      else d)
    debts

/-- One settlement's pass of the matrix-building loop (lines 146–148):
`debts[fromMember][toMember] -= settlement.amount`. -/
def applySettlementDebts (debts : Nat → Nat → ℚ) (s : Settlement) :
    Nat → Nat → ℚ :=
  matUpdate debts s.fromMember s.toMember
    (debts s.fromMember s.toMember - s.amount)

/-- The §4.3 debt matrix (lines 122–148): all ordered pairs start at 0, each
expense adds each non-payer participant's share at `(participant, payer)`,
each settlement subtracts its amount at `(fromMember, toMember)`.  (The
source initialises keys only for the group's members; the total function
agrees with it on every member pair.) -/
def buildDebtMatrix (expenses : List Expense) (settlements : List Settlement) :
    Nat → Nat → ℚ :=
  settlements.foldl applySettlementDebts
    (expenses.foldl applyExpenseDebts (fun _ _ => 0))

/-- The canonical unordered key of a member pair, mirroring the source's
`[debtor._id, creditor._id].sort().join("-")`. -/
def pairKey (a b : Nat) : Nat × Nat := (min a b, max a b)

/-- The body of the debt simplifier's inner loop (lines 162–192) for one
(debtor, creditor) pair: skip self-pairs and already `processed` pairs, mark
the pair processed, and when
`|debts[debtor][creditor] - debts[creditor][debtor]| > 0.01` push the single
netted directed debt, rounded to two decimals, toward the net creditor. -/
def simplifyStep (debts : Nat → Nat → ℚ) (debtor : Member)
    (st : List (Nat × Nat) × List DirectedDebt) (creditor : Member) :
    List (Nat × Nat) × List DirectedDebt :=
  if debtor.id = creditor.id then st
  else if pairKey debtor.id creditor.id ∈ st.1 then st
  else
    let processed := pairKey debtor.id creditor.id :: st.1
    let debtorOwes := debts debtor.id creditor.id
    let creditorOwes := debts creditor.id debtor.id
    let netDebt := debtorOwes - creditorOwes
    if |netDebt| > 1 / 100 then
      if netDebt > 0 then
        (processed,
         st.2 ++ [{ fromId := debtor.id, fromName := debtor.name,
                    toId := creditor.id, toName := creditor.name,
                    amount := round2 netDebt }])
      else
        (processed,
         st.2 ++ [{ fromId := creditor.id, fromName := creditor.name,
                    toId := debtor.id, toName := debtor.name,
                    amount := round2 (-netDebt) }])
    else (processed, st.2)

/-- The inner loop of the debt simplifier for one fixed `debtor`: fold the
loop body over the creditor list. -/
def simplifyInner (debts : Nat → Nat → ℚ) (debtor : Member)
    (creditorList : List Member)
    (st : List (Nat × Nat) × List DirectedDebt) :
    List (Nat × Nat) × List DirectedDebt :=
  creditorList.foldl (simplifyStep debts debtor) st

/-- `getDetailedDebts` (lines 104–196): build the debt matrix, then run the
nested simplification loops over all (debtor, creditor) member pairs with a
`processed` set of canonical pair keys, returning the pushed simplified
debts. -/
def getDetailedDebts (members : List Member) (expenses : List Expense)
    (settlements : List Settlement) : List DirectedDebt :=
  let debts := buildDebtMatrix expenses settlements
  (members.foldl (fun st debtor => simplifyInner debts debtor members st)
    ([], [])).2

/-- All unordered member pairs, each taken exactly once in list order: the
enumeration "iterate over all unordered pairs exactly once" of §4.4. -/
def memberPairs : List Member → List (Member × Member)
  | [] => []
  | m :: rest => rest.map (fun other => (m, other)) ++ memberPairs rest

/-- Modelled from the spec, §4.4 Debt Simplifier, single pair: with
`net = matrix[A][B] - matrix[B][A]`, emit nothing when `|net| ≤ 0.01`,
otherwise the one directed debt from the net debtor to the net creditor with
amount `round2(|net|)`. -/
def emitPair (debts : Nat → Nat → ℚ) (a b : Member) : Option DirectedDebt :=
  let net := debts a.id b.id - debts b.id a.id
  if |net| > 1 / 100 then
    if net > 0 then
      some { fromId := a.id, fromName := a.name,
             toId := b.id, toName := b.name, amount := round2 net }
    else
      some { fromId := b.id, fromName := b.name,
             toId := a.id, toName := a.name, amount := round2 (-net) }
  else none

/-- Modelled from the spec, §4.3 composed with §4.4: the simplifier applied
to the §4.3 debt matrix, one optional emission per unordered member pair. -/
def specSimplifiedDebts (members : List Member) (expenses : List Expense)
    (settlements : List Settlement) : List DirectedDebt :=
  (memberPairs members).filterMap
    (fun p => emitPair (buildDebtMatrix expenses settlements) p.1 p.2)

/-- The net-balance pass of `getOptimizedSettlements` (lines 219–250): per
member, fold expenses (`+ amount` when payer, `-` the member's share) and
settlements (`+ amount` as `fromMember`, `- amount` as `toMember`); keep the
member, with the balance rounded to two decimals, only when
`|balance| > 0.01`. -/
def computeNetBalances (members : List Member) (expenses : List Expense)
    (settlements : List Settlement) : List NetBalance :=
  members.filterMap fun member =>
    let afterExpenses := expenses.foldl
      (fun b expense =>
        (if expense.paidBy = member.id then b + expense.amount else b)
          - calculateExpenseSplit expense member.id)
      (0 : ℚ)
    let balance := settlements.foldl
      (fun b settlement =>
        let b := if settlement.fromMember = member.id then b + settlement.amount
                 else b
        if settlement.toMember = member.id then b - settlement.amount else b)
      afterExpenses
    if |balance| > 1 / 100 then
      some { memberId := member.id, name := member.name,
             balance := round2 balance }
    else none

/-- The creditor list of `getOptimizedSettlements` (lines 253–255): positive
net balances, stably sorted descending by balance (JavaScript sort is
stable; comparator `(a, b) => b.balance - a.balance`). -/
def optCreditors (members : List Member) (expenses : List Expense)
    (settlements : List Settlement) : List NetBalance :=
  ((computeNetBalances members expenses settlements).filter
      (fun m => 0 < m.balance)).mergeSort
    (fun a b => decide (b.balance ≤ a.balance))

/-- The debtor list of `getOptimizedSettlements` (lines 256–258): negative
net balances, stably sorted ascending by balance (most negative first). -/
def optDebtors (members : List Member) (expenses : List Expense)
    (settlements : List Settlement) : List NetBalance :=
  ((computeNetBalances members expenses settlements).filter
      (fun m => m.balance < 0)).mergeSort
    (fun a b => decide (a.balance ≤ b.balance))

/-- The greedy two-pointer loop of `getOptimizedSettlements`
(lines 269–293), with advancing pointers embedded as consuming list heads
and an explicit iteration budget `fuel`: each pass takes
`amount = min(-debtor.balance, creditor.balance)`, pushes the suggestion
when `amount > 0.01`, moves both balances by `amount`, and drops a head
whose updated balance has `|balance| < 0.01`. -/
def greedyLoop (fuel : Nat) (debtors creditors : List NetBalance) :
    List DirectedDebt :=
  match fuel with
  | 0 => []
  | fuel + 1 =>
    match debtors, creditors with
    | [], _ => []
    | _, [] => []
    | debtor :: restDebtors, creditor :: restCreditors =>
      let amount := min (-debtor.balance) creditor.balance
      let emitted : List DirectedDebt :=
        if amount > 1 / 100 then
          [{ fromId := debtor.memberId, fromName := debtor.name,
             toId := creditor.memberId, toName := creditor.name,
             amount := round2 amount }]
        else []
      let newDebtor : NetBalance :=
        { debtor with balance := debtor.balance + amount }
      let newCreditor : NetBalance :=
        { creditor with balance := creditor.balance - amount }
      let debtors' :=
        if |newDebtor.balance| < 1 / 100 then restDebtors
        else newDebtor :: restDebtors
      let creditors' :=
        if |newCreditor.balance| < 1 / 100 then restCreditors
        else newCreditor :: restCreditors
      emitted ++ greedyLoop fuel debtors' creditors'

/-- `getOptimizedSettlements` (lines 200–296): partition the rounded nonzero
net balances into sorted debtors and creditors and run the greedy
two-pointer matching.  The loop is run with budget
`debtors.length + creditors.length`, which theorem `optimizer_terminates`
shows is never exhausted (every pass zeroes at least one head). -/
def getOptimizedSettlements (members : List Member) (expenses : List Expense)
    (settlements : List Settlement) : List DirectedDebt :=
  let debtors := optDebtors members expenses settlements
  let creditors := optCreditors members expenses settlements
  greedyLoop (debtors.length + creditors.length) debtors creditors

/-- One entry of `categoryBreakdown` in the group summary. -/
structure CategoryEntry where
  category : String
  total : ℚ
  percentage : ℚ
deriving DecidableEq

/-- The record returned by `getGroupSummary`.  The two averages are
JavaScript divisions and may be non-finite, hence `Option ℚ`. -/
structure GroupSummary where
  groupName : String
  memberCount : Nat
  totalMembers : Nat
  expenseCount : Nat
  totalExpenses : ℚ
  settlementCount : Nat
  totalSettled : ℚ
  averageExpense : Option ℚ
  perPersonAverage : Option ℚ
  categoryBreakdown : List CategoryEntry
deriving DecidableEq

/-- Accumulation into a JavaScript object used as a map
(`categoryTotals[category] = (categoryTotals[category] ?? 0) + amount`):
adds to an existing key in place, else appends the key in insertion order. -/
def upsertTotal (acc : List (String × ℚ)) (key : String) (amount : ℚ) :
    List (String × ℚ) :=
  match acc with
  | [] => [(key, amount)]
  | (k, v) :: rest =>
    if k = key then (k, v + amount) :: rest
    else (k, v) :: upsertTotal rest key amount

/-- `getGroupSummary` (lines 344–393): counts, totals, category breakdown
and the two averages.  `averageExpense` is guarded by `expenses.length > 0`
and divides by `expenses.length`; `perPersonAverage` is guarded by
`members.length > 0` but divides by the number of *active* members, exactly
as the source does. -/
def getGroupSummary (group : Group) (members : List Member)
    (expenses : List Expense) (settlements : List Settlement) : GroupSummary :=
  let totalExpenses := expenses.foldl (fun sum e => sum + e.amount) 0
  let totalSettled := settlements.foldl (fun sum s => sum + s.amount) 0
  let categoryTotals := expenses.foldl
    (fun acc e => upsertTotal acc (e.category.getD "Uncategorized") e.amount)
    []
  { groupName := group.name
    memberCount := (members.filter (fun m => m.isActive)).length
    totalMembers := members.length
    expenseCount := expenses.length
    totalExpenses := totalExpenses
    settlementCount := settlements.length
    totalSettled := totalSettled
    averageExpense :=
      if expenses.length > 0 then jsDiv totalExpenses expenses.length
      else some 0
    perPersonAverage :=
      if members.length > 0 then
        jsDiv totalExpenses ((members.filter (fun m => m.isActive)).length : ℚ)
      else some 0
    categoryBreakdown := categoryTotals.map fun ct =>
      { category := ct.1, total := ct.2,
        percentage :=
          if totalExpenses > 0 then ct.2 / totalExpenses * 100 else 0 } }

/-- Helper: the optional-chaining lookup `splitDetails?.find(...)` and the
lookup in the detail list defaulted to `[]` agree. -/
lemma splitDetails_bind_eq (e : Expense) (m : Nat) :
    e.splitDetails.bind (List.find? fun d => d.memberId == m)
      = (e.splitDetails.getD []).find? fun d => d.memberId == m := by
  cases e.splitDetails <;> rfl

/-- Helper: a detail found by the lookup is an element of the detail list. -/
lemma mem_of_bind_find?_eq_some {e : Expense} {m : Nat} {d : SplitDetail}
    (h : e.splitDetails.bind (List.find? fun x => x.memberId == m) = some d) :
    d ∈ e.splitDetails.getD [] := by
  rw [splitDetails_bind_eq] at h
  exact List.mem_of_find?_eq_some h

/-- Claim C7: `calculateExpenseSplit` case analysis — a member outside
`splitAmong` owes 0; for an `exact` split the result is the matching detail
entry's value, or 0 if no entry for that member exists; for a `percentage`
split it is `amount * value / 100` for the matching entry, or 0 if absent. -/
theorem claim7_split_case_analysis (e : Expense) (m : Nat) :
    (m ∉ e.splitAmong → calculateExpenseSplit e m = 0) ∧
    (m ∈ e.splitAmong → e.splitType = "exact" →
      calculateExpenseSplit e m =
        ((((e.splitDetails.getD []).find? fun d => d.memberId == m).map
            SplitDetail.value).getD 0)) ∧
    (m ∈ e.splitAmong → e.splitType = "percentage" →
      calculateExpenseSplit e m =
        e.amount *
          ((((e.splitDetails.getD []).find? fun d => d.memberId == m).map
              SplitDetail.value).getD 0) / 100) := by
  refine ⟨fun hnot => ?_, fun hmem hty => ?_, fun hmem hty => ?_⟩
  · simp [calculateExpenseSplit, hnot]
  · simp only [calculateExpenseSplit, hmem, not_true_eq_false, if_false, hty,
      splitDetails_bind_eq]
    cases h : (e.splitDetails.getD []).find? fun d => d.memberId == m <;>
      simp [h]
  · simp only [calculateExpenseSplit, hmem, not_true_eq_false, if_false, hty,
      splitDetails_bind_eq]
    cases h : (e.splitDetails.getD []).find? fun d => d.memberId == m <;>
      simp [h]

/-- Claim C7 witness: a member outside `splitAmong` owes 0 on a concrete
expense, by the case-analysis theorem. -/
theorem claim7_witness :
    calculateExpenseSplit
      { amount := 90, paidBy := 1, splitAmong := [1, 2, 3],
        splitType := "equal", splitDetails := none, category := none } 7
      = 0 :=
  (claim7_split_case_analysis _ 7).1 (by decide)

/-- Claim C4 counterexample: on an unrecognized split-type tag the source's
`default` branch silently returns the numeric value 0 for a participant —
it does not fail. -/
theorem claim4_counterexample :
    calculateExpenseSplit
      { amount := 10, paidBy := 1, splitAmong := [1],
        splitType := "mystery", splitDetails := none, category := none } 1
      = 0 := rfl

/-- Claim C4 amended: for every expense whose split-type tag is not one of
`equal`, `exact`, `percentage`, `calculateExpenseSplit` silently defaults to
the numeric result 0 for every member (the `default: return 0` branch);
no error is raised. -/
theorem claim4_amended_default_returns_zero (e : Expense) (m : Nat)
    (h : e.splitType ∉ (["equal", "exact", "percentage"] : List String)) :
    calculateExpenseSplit e m = 0 := by
  simp only [List.mem_cons, List.not_mem_nil, or_false, not_or] at h
  unfold calculateExpenseSplit
  split
  · rfl
  · split
    next heq => exact absurd heq h.1
    next heq => exact absurd heq h.2.1
    next heq => exact absurd heq h.2.2
    next => rfl

/-- Claim C4 witness: the amended theorem applied to a concrete expense with
tag `"shares"`. -/
theorem claim4_witness :
    calculateExpenseSplit
      { amount := 25, paidBy := 2, splitAmong := [2, 3],
        splitType := "shares", splitDetails := none, category := none } 3
      = 0 :=
  claim4_amended_default_returns_zero _ 3 (by decide)

/-- Claim C5 counterexample: on an `equal`-type expense with empty
`splitAmong` the source returns 0 (the membership test fails first), rather
than failing with a DivisionByZero-class error. -/
theorem claim5_counterexample :
    calculateExpenseSplit
      { amount := 10, paidBy := 1, splitAmong := [],
        splitType := "equal", splitDetails := none, category := none } 7
      = 0 := rfl

/-- Claim C5 amended: for an `equal`-type expense, a member of `splitAmong`
owes `amount / |splitAmong|`; when `splitAmong` is empty no member belongs
to it, so the division by zero is unreachable and the result is silently 0
for every member — no error is raised. -/
theorem claim5_amended_equal_split (e : Expense) (m : Nat)
    (hty : e.splitType = "equal") :
    (m ∈ e.splitAmong →
      calculateExpenseSplit e m = e.amount / e.splitAmong.length) ∧
    (e.splitAmong = [] → calculateExpenseSplit e m = 0) := by
  constructor
  · intro hmem
    simp [calculateExpenseSplit, hmem, hty]
  · intro hempty
    simp [calculateExpenseSplit, hempty]

/-- Claim C5 witness: the amended theorem applied to a 90-among-3 equal
split. -/
theorem claim5_witness :
    calculateExpenseSplit
      { amount := 90, paidBy := 1, splitAmong := [1, 2, 3],
        splitType := "equal", splitDetails := none, category := none } 2
      = 30 := by
  have h := (claim5_amended_equal_split
    { amount := 90, paidBy := 1, splitAmong := [1, 2, 3],
      splitType := "equal", splitDetails := none, category := none }
    2 rfl).1 (by decide)
  norm_num at h
  exact h

/-- Claim C6 counterexample: an `exact` split detail may carry a negative
value, and `calculateExpenseSplit` then returns a negative share. -/
theorem claim6_counterexample :
    calculateExpenseSplit
      { amount := 10, paidBy := 2, splitAmong := [1],
        splitType := "exact",
        splitDetails := some [{ memberId := 1, value := -5 }],
        category := none } 1
      = -5 ∧ (-5 : ℚ) < 0 :=
  ⟨rfl, by norm_num⟩

/-- Claim C6 amended: `calculateExpenseSplit` is non-negative provided the
expense amount and every split-detail value are non-negative; with a
negative detail value (or negative amount) it can return a negative
share. -/
theorem claim6_amended_nonneg (e : Expense) (m : Nat)
    (hamt : 0 ≤ e.amount)
    (hdet : ∀ d ∈ e.splitDetails.getD [], 0 ≤ d.value) :
    0 ≤ calculateExpenseSplit e m := by
  unfold calculateExpenseSplit
  split
  · exact le_refl 0
  · split
    · exact div_nonneg hamt (Nat.cast_nonneg _)
    · split
      next d hfind => exact hdet d (mem_of_bind_find?_eq_some hfind)
      next => exact le_refl 0
    · split
      next d hfind =>
        exact div_nonneg
          (mul_nonneg hamt (hdet d (mem_of_bind_find?_eq_some hfind)))
          (by norm_num)
      next => exact le_refl 0
    · exact le_refl 0

/-- Claim C6 witness: the amended theorem applied to a concrete exact split
with non-negative details. -/
theorem claim6_witness :
    0 ≤ calculateExpenseSplit
      { amount := 10, paidBy := 1, splitAmong := [1, 2],
        splitType := "exact",
        splitDetails := some [{ memberId := 1, value := 4 },
                              { memberId := 2, value := 6 }],
        category := none } 1 :=
  claim6_amended_nonneg _ 1 (by norm_num)
    (by intro d hd; simp at hd; rcases hd with h | h <;> subst h <;> norm_num)

/-- Claim C9: the source guards `averageExpense` correctly, but
`perPersonAverage` is guarded by `members.length > 0` while dividing by the
number of *active* members: a nonempty group whose members are all inactive
divides a nonzero total by zero and produces a non-finite value
(`Infinity`), contradicting the spec's guarded-to-0 contract. -/
theorem claim9_per_person_average_divide_by_zero :
    (getGroupSummary { name := "g" } [{ id := 1, name := "A", isActive := false }]
        [{ amount := 5, paidBy := 1, splitAmong := [1], splitType := "equal",
           splitDetails := none, category := none }] []).perPersonAverage
      = none ∧
    (getGroupSummary { name := "g" } [{ id := 1, name := "A", isActive := false }]
        [] []).averageExpense = some 0 := by
  constructor
  · simp [getGroupSummary, jsDiv]
  · simp [getGroupSummary, jsDiv]

/-- Helper: sums distribute over pointwise addition of mapped functions. -/
lemma sum_map_add_distrib {α : Type} (l : List α) (f g : α → ℚ) :
    (l.map fun x => f x + g x).sum = (l.map f).sum + (l.map g).sum := by
  induction l with
  | nil => simp
  | cons a l ih => simp [ih]; ring

/-- Helper: sums distribute over pointwise subtraction of mapped functions. -/
lemma sum_map_sub_distrib {α : Type} (l : List α) (f g : α → ℚ) :
    (l.map fun x => f x - g x).sum = (l.map f).sum - (l.map g).sum := by
  induction l with
  | nil => simp
  | cons a l ih => simp [ih]; ring

/-- Helper: a double sum over two lists commutes. -/
lemma sum_map_comm {α β : Type} (l1 : List α) (l2 : List β) (f : α → β → ℚ) :
    (l1.map fun a => (l2.map (f a)).sum).sum
      = (l2.map fun b => (l1.map fun a => f a b).sum).sum := by
  induction l1 with
  | nil => simp
  | cons a l ih =>
    simp only [List.map_cons, List.sum_cons, ih]
    rw [← sum_map_add_distrib]

/-- Helper: summing an indicator `if x = i then c else 0` over a list not
containing `x` gives 0. -/
lemma sum_ite_of_not_mem (ids : List Nat) (x : Nat) (c : ℚ) (hx : x ∉ ids) :
    (ids.map fun i => if x = i then c else 0).sum = 0 := by
  induction ids with
  | nil => simp
  | cons i l ih =>
    simp only [List.mem_cons, not_or] at hx
    simp [hx.1, ih hx.2]

/-- Helper: summing an indicator `if x = i then c else 0` over a
duplicate-free list containing `x` gives `c`. -/
lemma sum_ite_of_mem (ids : List Nat) (x : Nat) (c : ℚ) (hnd : ids.Nodup)
    (hx : x ∈ ids) :
    (ids.map fun i => if x = i then c else 0).sum = c := by
  induction ids with
  | nil => cases hx
  | cons i l ih =>
    rcases List.nodup_cons.mp hnd with ⟨hnotmem, hndl⟩
    rcases List.mem_cons.mp hx with hx | hx
    · subst hx
      simp [sum_ite_of_not_mem l x c hnotmem]
    · have hne : x ≠ i := fun h => hnotmem (h ▸ hx)
      simp [hne, ih hndl hx]

/-- Helper: restricting a sum over a duplicate-free index list to a
duplicate-free sublist of indices. -/
lemma sum_ite_mem_subset (ids sub : List Nat) (f : Nat → ℚ)
    (hnd : ids.Nodup) (hsnd : sub.Nodup) (hsub : ∀ x ∈ sub, x ∈ ids) :
    (ids.map fun i => if i ∈ sub then f i else 0).sum = (sub.map f).sum := by
  rw [← List.sum_toFinset _ hnd, ← List.sum_toFinset _ hsnd]
  have h1 : (∑ i ∈ ids.toFinset, if i ∈ sub then f i else 0)
      = ∑ i ∈ ids.toFinset, if i ∈ sub.toFinset then f i else 0 := by
    apply Finset.sum_congr rfl
    intro i _
    simp [List.mem_toFinset]
  rw [h1, Finset.sum_ite_mem]
  congr 1
  rw [Finset.inter_eq_right]
  intro x hx
  rw [List.mem_toFinset] at hx ⊢
  exact hsub x hx

/-- The value the detail-list lookup produces for a member id: the found
entry's value, else 0. -/
def detailLookup (ds : List SplitDetail) (x : Nat) : ℚ :=
  match ds.find? (fun d => d.memberId == x) with
  | some d => d.value
  | none => 0

/-- Helper: looking every key of a duplicate-free detail list back up
recovers exactly the list of values. -/
lemma map_detailLookup (ds : List SplitDetail)
    (hnd : (ds.map SplitDetail.memberId).Nodup) :
    (ds.map SplitDetail.memberId).map (detailLookup ds)
      = ds.map SplitDetail.value := by
  induction ds with
  | nil => rfl
  | cons d tl ih =>
    rcases List.nodup_cons.mp hnd with ⟨hnotmem, hndtl⟩
    simp only [List.map_cons, List.map_map]
    congr 1
    case _ => simp [detailLookup]
    case _ =>
      have hcongr : ∀ x ∈ tl, (detailLookup (d :: tl) ∘ SplitDetail.memberId) x
          = (detailLookup tl ∘ SplitDetail.memberId) x := by
        intro x hx
        have hne : d.memberId ≠ x.memberId := by
          intro h
          exact hnotmem (h ▸ List.mem_map_of_mem SplitDetail.memberId hx)
        have hbeq : (d.memberId == x.memberId) = false := by simpa using hne
        simp [detailLookup, List.find?, hbeq]
      rw [List.map_congr_left hcongr]
      have := ih hndtl
      rw [List.map_map] at this
      exact this

/-- An expense is internally consistent for the member-id list `ids` when
its payer and all participants are known members, the participants are
distinct and non-empty (the §3 data-model invariants), its tag is one of the
three recognized split types, and a detail list for `exact`/`percentage` has
exactly one entry per participant with values summing to the amount
(resp. to 100), the §3 creation invariants. -/
def ExpenseConsistent (ids : List Nat) (e : Expense) : Prop :=
  e.paidBy ∈ ids ∧ (∀ m ∈ e.splitAmong, m ∈ ids) ∧ e.splitAmong.Nodup ∧
  e.splitAmong ≠ [] ∧
  (e.splitType = "equal" ∨
   (e.splitType = "exact" ∧ ∃ ds, e.splitDetails = some ds ∧
     (ds.map SplitDetail.memberId).Perm e.splitAmong ∧
     (ds.map SplitDetail.value).sum = e.amount) ∨
   (e.splitType = "percentage" ∧ ∃ ds, e.splitDetails = some ds ∧
     (ds.map SplitDetail.memberId).Perm e.splitAmong ∧
     (ds.map SplitDetail.value).sum = 100))

/-- A settlement is internally consistent when both endpoints are known
members. -/
def SettlementConsistent (ids : List Nat) (s : Settlement) : Prop :=
  s.fromMember ∈ ids ∧ s.toMember ∈ ids

/-- An internally consistent input: distinct member identities, and every
expense and settlement consistent with them. -/
def ConsistentInput (members : List Member) (expenses : List Expense)
    (settlements : List Settlement) : Prop :=
  (members.map Member.id).Nodup ∧
  (∀ e ∈ expenses, ExpenseConsistent (members.map Member.id) e) ∧
  (∀ s ∈ settlements, SettlementConsistent (members.map Member.id) s)

/-- Key conservation lemma: over a duplicate-free id list, the shares of a
consistent expense sum to exactly its amount. -/
lemma sum_split_eq_amount (ids : List Nat) (e : Expense) (hnd : ids.Nodup)
    (hcons : ExpenseConsistent ids e) :
    (ids.map fun i => calculateExpenseSplit e i).sum = e.amount := by
  obtain ⟨-, hsub, hSnd, hne, hty⟩ := hcons
  rcases hty with hty | ⟨hty, ds, hds, hperm, hsum⟩ | ⟨hty, ds, hds, hperm, hsum⟩
  · -- equal split
    have hpt : ∀ i ∈ ids, calculateExpenseSplit e i
        = if i ∈ e.splitAmong then e.amount / e.splitAmong.length else 0 := by
      intro i _
      by_cases h : i ∈ e.splitAmong <;> simp [calculateExpenseSplit, h, hty]
    rw [List.map_congr_left hpt,
      sum_ite_mem_subset ids e.splitAmong _ hnd hSnd hsub,
      List.map_const', List.sum_replicate, nsmul_eq_mul]
    have hlen : (e.splitAmong.length : ℚ) ≠ 0 := by
      rw [Nat.cast_ne_zero]
      exact fun h => hne (List.length_eq_zero.mp h)
    exact mul_div_cancel₀ e.amount hlen
  · -- exact split
    have hkeysnd : (ds.map SplitDetail.memberId).Nodup :=
      hperm.nodup_iff.mpr hSnd
    have hpt : ∀ i ∈ ids, calculateExpenseSplit e i
        = if i ∈ e.splitAmong then detailLookup ds i else 0 := by
      intro i _
      by_cases h : i ∈ e.splitAmong <;>
        simp [calculateExpenseSplit, h, hty, hds, detailLookup]
    rw [List.map_congr_left hpt,
      sum_ite_mem_subset ids e.splitAmong _ hnd hSnd hsub]
    rw [← hsum, ← map_detailLookup ds hkeysnd]
    exact ((hperm.map (detailLookup ds)).sum_eq).symm
  · -- percentage split
    have hkeysnd : (ds.map SplitDetail.memberId).Nodup :=
      hperm.nodup_iff.mpr hSnd
    have hpt : ∀ i ∈ ids, calculateExpenseSplit e i
        = if i ∈ e.splitAmong then e.amount * detailLookup ds i / 100
          else 0 := by
      intro i _
      by_cases h : i ∈ e.splitAmong
      · simp only [calculateExpenseSplit, h, hty, hds, detailLookup]
        simp only [not_true_eq_false, if_false, if_pos h]
        cases hf : List.find? (fun d => d.memberId == i) ds <;> simp [hf]
      · simp [calculateExpenseSplit, h]
    rw [List.map_congr_left hpt,
      sum_ite_mem_subset ids e.splitAmong _ hnd hSnd hsub]
    have hcomp : e.splitAmong.map (fun i => e.amount * detailLookup ds i / 100)
        = (e.splitAmong.map (detailLookup ds)).map
            (fun v => e.amount / 100 * v) := by
      rw [List.map_map]
      apply List.map_congr_left
      intro i _
      simp [Function.comp]
      ring
    rw [hcomp, List.sum_map_mul_left]
    have hvals : (e.splitAmong.map (detailLookup ds)).sum = 100 := by
      rw [← hsum, ← map_detailLookup ds hkeysnd]
      exact ((hperm.map (detailLookup ds)).sum_eq).symm
    rw [List.map_id', hvals]
    field_simp

/-- Helper: a paired fold of running additions computes the two mapped
sums. -/
lemma foldl_pair_sum {α : Type} (l : List α) (f g : α → ℚ) (a b : ℚ) :
    l.foldl (fun acc x => (acc.1 + f x, acc.2 + g x)) (a, b)
      = (a + (l.map f).sum, b + (l.map g).sum) := by
  induction l generalizing a b with
  | nil => simp
  | cons x l ih =>
    simp only [List.foldl_cons, List.map_cons, List.sum_cons, ih]
    rw [Prod.mk.injEq]
    constructor <;> ring

/-- Bridge: each balance reported by `getMemberBalances` is the member's
expense-paid sum plus settlement-paid sum, minus owed-share sum and
settlement-received sum. -/
lemma getMemberBalances_balance_eq (members : List Member)
    (expenses : List Expense) (settlements : List Settlement) :
    (getMemberBalances members expenses settlements).map MemberBalance.balance
      = members.map fun m =>
          ((expenses.map fun e =>
              if e.paidBy = m.id then e.amount else 0).sum
            + (settlements.map fun s =>
                if s.fromMember = m.id then s.amount else 0).sum)
          - ((expenses.map fun e => calculateExpenseSplit e m.id).sum
            + (settlements.map fun s =>
                if s.toMember = m.id then s.amount else 0).sum) := by
  unfold getMemberBalances
  rw [List.map_map]
  apply List.map_congr_left
  intro m _
  simp only [Function.comp]
  have hstep1 : (fun (acc : ℚ × ℚ) (expense : Expense) =>
      ((if expense.paidBy = m.id then acc.1 + expense.amount else acc.1),
       acc.2 + calculateExpenseSplit expense m.id))
      = fun acc expense =>
        (acc.1 + (if expense.paidBy = m.id then expense.amount else 0),
         acc.2 + calculateExpenseSplit expense m.id) := by
    funext acc e
    by_cases h : e.paidBy = m.id <;> simp [h]
  have hstep2 : (fun (acc : ℚ × ℚ) (settlement : Settlement) =>
      ((if settlement.fromMember = m.id then acc.1 + settlement.amount
        else acc.1),
       (if settlement.toMember = m.id then acc.2 + settlement.amount
        else acc.2)))
      = fun acc settlement =>
        (acc.1 + (if settlement.fromMember = m.id then settlement.amount
          else 0),
         acc.2 + (if settlement.toMember = m.id then settlement.amount
          else 0)) := by
    funext acc s
    by_cases h1 : s.fromMember = m.id <;> by_cases h2 : s.toMember = m.id <;>
      simp [h1, h2]
  rw [hstep1, hstep2, foldl_pair_sum, foldl_pair_sum]
  dsimp only
  ring

/-- Claim C1: for every internally consistent input, the balances returned
by `getMemberBalances` sum to exactly 0 (in particular within the spec's
0.01 tolerance): every dollar paid is owed by someone and every settlement
transfers credit. -/
theorem claim1_balances_sum_zero (members : List Member)
    (expenses : List Expense) (settlements : List Settlement)
    (h : ConsistentInput members expenses settlements) :
    ((getMemberBalances members expenses settlements).map
        MemberBalance.balance).sum = 0 := by
  obtain ⟨hnd, hexp, hset⟩ := h
  rw [getMemberBalances_balance_eq]
  have hrw : (members.map fun m =>
      ((expenses.map fun e => if e.paidBy = m.id then e.amount else 0).sum
        + (settlements.map fun s =>
            if s.fromMember = m.id then s.amount else 0).sum)
      - ((expenses.map fun e => calculateExpenseSplit e m.id).sum
        + (settlements.map fun s =>
            if s.toMember = m.id then s.amount else 0).sum))
      = ((members.map Member.id).map fun i =>
      ((expenses.map fun e => if e.paidBy = i then e.amount else 0).sum
        + (settlements.map fun s =>
            if s.fromMember = i then s.amount else 0).sum)
      - ((expenses.map fun e => calculateExpenseSplit e i).sum
        + (settlements.map fun s =>
            if s.toMember = i then s.amount else 0).sum)) := by
    rw [List.map_map]
    rfl
  rw [hrw]
  rw [sum_map_sub_distrib (members.map Member.id)
    (fun i => (expenses.map fun e => if e.paidBy = i then e.amount else 0).sum
      + (settlements.map fun s =>
          if s.fromMember = i then s.amount else 0).sum)
    (fun i => (expenses.map fun e => calculateExpenseSplit e i).sum
      + (settlements.map fun s =>
          if s.toMember = i then s.amount else 0).sum)]
  rw [sum_map_add_distrib (members.map Member.id)
    (fun i => (expenses.map fun e => if e.paidBy = i then e.amount else 0).sum)
    (fun i => (settlements.map fun s =>
        if s.fromMember = i then s.amount else 0).sum)]
  rw [sum_map_add_distrib (members.map Member.id)
    (fun i => (expenses.map fun e => calculateExpenseSplit e i).sum)
    (fun i => (settlements.map fun s =>
        if s.toMember = i then s.amount else 0).sum)]
  have h1 : ((members.map Member.id).map fun i =>
      (expenses.map fun e => if e.paidBy = i then e.amount else 0).sum).sum
      = (expenses.map Expense.amount).sum := by
    rw [sum_map_comm]
    exact congrArg List.sum (List.map_congr_left fun e he =>
      sum_ite_of_mem _ e.paidBy e.amount hnd (hexp e he).1)
  have h2 : ((members.map Member.id).map fun i =>
      (expenses.map fun e => calculateExpenseSplit e i).sum).sum
      = (expenses.map Expense.amount).sum := by
    rw [sum_map_comm]
    exact congrArg List.sum (List.map_congr_left fun e he =>
      sum_split_eq_amount _ e hnd (hexp e he))
  have h3 : ((members.map Member.id).map fun i =>
      (settlements.map fun s =>
        if s.fromMember = i then s.amount else 0).sum).sum
      = (settlements.map Settlement.amount).sum := by
    rw [sum_map_comm]
    exact congrArg List.sum (List.map_congr_left fun s hs =>
      sum_ite_of_mem _ s.fromMember s.amount hnd (hset s hs).1)
  have h4 : ((members.map Member.id).map fun i =>
      (settlements.map fun s =>
        if s.toMember = i then s.amount else 0).sum).sum
      = (settlements.map Settlement.amount).sum := by
    rw [sum_map_comm]
    exact congrArg List.sum (List.map_congr_left fun s hs =>
      sum_ite_of_mem _ s.toMember s.amount hnd (hset s hs).2)
  rw [h1, h2, h3, h4]
  ring

/-- Claim C1 witness: conservation on a concrete two-member group with one
equal-split expense and one settlement. -/
theorem claim1_witness :
    ((getMemberBalances
        [{ id := 1, name := "A", isActive := true },
         { id := 2, name := "B", isActive := true }]
        [{ amount := 10, paidBy := 1, splitAmong := [1, 2],
           splitType := "equal", splitDetails := none, category := none }]
        [{ fromMember := 2, toMember := 1, amount := 3 }]).map
      MemberBalance.balance).sum = 0 :=
  claim1_balances_sum_zero _ _ _
    ⟨by decide,
     by
       intro e he
       simp only [List.mem_singleton] at he
       subst he
       exact ⟨by decide, by decide, by decide, by decide, Or.inl rfl⟩,
     by
       intro s hs
       simp only [List.mem_singleton] at hs
       subst hs
       exact ⟨by decide, by decide⟩⟩

/-- Claim C3: for a concrete input whose nonzero net balances are
A: +50, B: −30, C: −20 (one exact-split expense of 50 paid by A, owed
30 by B and 20 by C), the optimizer suggests exactly `B pays A 30` then
`C pays A 20`, and recording both suggestions as settlements brings every
member's balance within 0.01 of zero. -/
theorem claim3_optimizer_scenario :
    getOptimizedSettlements
        [{ id := 1, name := "A", isActive := true },
         { id := 2, name := "B", isActive := true },
         { id := 3, name := "C", isActive := true }]
        [{ amount := 50, paidBy := 1, splitAmong := [2, 3],
           splitType := "exact",
           splitDetails := some [{ memberId := 2, value := 30 },
                                 { memberId := 3, value := 20 }],
           category := none }]
        []
      = [{ fromId := 2, fromName := "B", toId := 1, toName := "A",
           amount := 30 },
         { fromId := 3, fromName := "C", toId := 1, toName := "A",
           amount := 20 }] ∧
    ((getMemberBalances
        [{ id := 1, name := "A", isActive := true },
         { id := 2, name := "B", isActive := true },
         { id := 3, name := "C", isActive := true }]
        [{ amount := 50, paidBy := 1, splitAmong := [2, 3],
           splitType := "exact",
           splitDetails := some [{ memberId := 2, value := 30 },
                                 { memberId := 3, value := 20 }],
           category := none }]
        [{ fromMember := 2, toMember := 1, amount := 30 },
         { fromMember := 3, toMember := 1, amount := 20 }]).map
      MemberBalance.balance).all (fun b => decide (|b| ≤ 1 / 100)) = true := by
  constructor
  · simp [getOptimizedSettlements, optDebtors, optCreditors,
      computeNetBalances, calculateExpenseSplit, greedyLoop, round2, jsRound,
      List.mergeSort, List.merge, List.filterMap_cons, List.filter_cons,
      List.find?]
    norm_num
    norm_num [List.mergeSort, List.merge, decide_eq_true_eq, greedyLoop,
      round2, jsRound, min_def]
  · simp [getMemberBalances, calculateExpenseSplit, List.find?,
      Bool.and_eq_true, decide_eq_true_eq]
    norm_num

/-- Helper: one unfolding step of the greedy loop on non-empty lists. -/
lemma greedyLoop_succ (fuel : Nat) (d c : NetBalance)
    (ds cs : List NetBalance) :
    greedyLoop (fuel + 1) (d :: ds) (c :: cs)
      = (if min (-d.balance) c.balance > 1 / 100 then
          [{ fromId := d.memberId, fromName := d.name,
             toId := c.memberId, toName := c.name,
             amount := round2 (min (-d.balance) c.balance) }]
         else [])
        ++ greedyLoop fuel
          (if |d.balance + min (-d.balance) c.balance| < 1 / 100 then ds
           else { memberId := d.memberId, name := d.name,
                  balance := d.balance + min (-d.balance) c.balance } :: ds)
          (if |c.balance - min (-d.balance) c.balance| < 1 / 100 then cs
           else { memberId := c.memberId, name := c.name,
                  balance := c.balance - min (-d.balance) c.balance } :: cs) :=
  rfl

/-- Helper: every pass of the greedy loop zeroes at least one of the two
head balances, because `min` equals one of its arguments. -/
lemma greedyLoop_progress (d c : NetBalance) :
    |d.balance + min (-d.balance) c.balance| < 1 / 100 ∨
    |c.balance - min (-d.balance) c.balance| < 1 / 100 := by
  rcases min_choice (-d.balance) c.balance with h | h
  · left
    rw [h]
    simp
  · right
    rw [h]
    simp

/-- Helper: the greedy loop emits at most one suggestion per unit of list
length. -/
lemma greedyLoop_length (fuel : Nat) :
    ∀ ds cs : List NetBalance,
      (greedyLoop fuel ds cs).length ≤ ds.length + cs.length := by
  induction fuel with
  | zero => intro ds cs; simp [greedyLoop]
  | succ n ih =>
    intro ds cs
    match ds, cs with
    | [], _ => simp [greedyLoop]
    | _ :: _, [] => simp [greedyLoop]
    | d :: ds', c :: cs' =>
      rw [greedyLoop_succ]
      rw [List.length_append]
      have hrec := ih
        (if |d.balance + min (-d.balance) c.balance| < 1 / 100 then ds'
         else { memberId := d.memberId, name := d.name,
                balance := d.balance + min (-d.balance) c.balance } :: ds')
        (if |c.balance - min (-d.balance) c.balance| < 1 / 100 then cs'
         else { memberId := c.memberId, name := c.name,
                balance := c.balance - min (-d.balance) c.balance } :: cs')
      have hprog :
          (if |d.balance + min (-d.balance) c.balance| < 1 / 100 then ds'
           else { memberId := d.memberId, name := d.name,
                  balance := d.balance + min (-d.balance) c.balance }
             :: ds').length
          + (if |c.balance - min (-d.balance) c.balance| < 1 / 100 then cs'
             else { memberId := c.memberId, name := c.name,
                    balance := c.balance - min (-d.balance) c.balance }
               :: cs').length
          ≤ ds'.length + cs'.length + 1 := by
        rcases greedyLoop_progress d c with h | h
        · rw [if_pos h]
          split <;> simp <;> omega
        · rw [if_pos h]
          split <;> simp <;> omega
      have hemit : (if min (-d.balance) c.balance > 1 / 100 then
          [{ fromId := d.memberId, fromName := d.name,
             toId := c.memberId, toName := c.name,
             amount := round2 (min (-d.balance) c.balance) }]
         else ([] : List DirectedDebt)).length ≤ 1 := by
        split <;> simp
      simp only [List.length_cons]
      omega

/-- Helper: with at least `ds.length + cs.length` fuel the greedy loop's
result no longer depends on the fuel — the loop has reached its exit
condition. -/
lemma greedyLoop_fuel_stable :
    ∀ (n : Nat) (ds cs : List NetBalance), ds.length + cs.length ≤ n →
      ∀ m, n ≤ m → greedyLoop m ds cs = greedyLoop n ds cs := by
  intro n
  induction n with
  | zero =>
    intro ds cs h m _
    have hds : ds = [] := by
      cases ds with
      | nil => rfl
      | cons x l => simp at h
    have hcs : cs = [] := by
      cases cs with
      | nil => rfl
      | cons x l => simp at h
    subst hds; subst hcs
    cases m <;> rfl
  | succ n ih =>
    intro ds cs h m hm
    obtain ⟨m', rfl⟩ : ∃ m', m = m' + 1 := ⟨m - 1, by omega⟩
    match ds, cs with
    | [], _ => simp [greedyLoop]
    | _ :: _, [] => simp [greedyLoop]
    | d :: ds', c :: cs' =>
      rw [greedyLoop_succ, greedyLoop_succ]
      congr 1
      have hprog :
          (if |d.balance + min (-d.balance) c.balance| < 1 / 100 then ds'
           else { memberId := d.memberId, name := d.name,
                  balance := d.balance + min (-d.balance) c.balance }
             :: ds').length
          + (if |c.balance - min (-d.balance) c.balance| < 1 / 100 then cs'
             else { memberId := c.memberId, name := c.name,
                    balance := c.balance - min (-d.balance) c.balance }
               :: cs').length
          ≤ ds'.length + cs'.length + 1 := by
        rcases greedyLoop_progress d c with h1 | h1
        · rw [if_pos h1]
          split <;> simp <;> omega
        · rw [if_pos h1]
          split <;> simp <;> omega
      have hlen : ds'.length + cs'.length + 1 ≤ n := by
        simp only [List.length_cons] at h
        omega
      have hb := ih _ _ (le_trans hprog hlen) m' (by omega)
      rw [hb]

/-- Helper: a list's negative-balance and positive-balance filters together
are no longer than the list. -/
lemma filter_neg_pos_length (l : List NetBalance) :
    (l.filter (fun m => m.balance < 0)).length
      + (l.filter (fun m => 0 < m.balance)).length ≤ l.length := by
  induction l with
  | nil => simp
  | cons x l ih =>
    by_cases h1 : x.balance < 0
    · have h2 : ¬0 < x.balance := by linarith
      simp [List.filter_cons, h1, h2]
      omega
    · by_cases h2 : 0 < x.balance
      · simp [List.filter_cons, h1, h2]
        omega
      · simp [List.filter_cons, h1, h2]
        omega

/-- Helper: `getOptimizedSettlements` is the greedy loop run on its sorted
debtor and creditor lists with their combined length as the budget. -/
lemma getOptimizedSettlements_eq (members : List Member)
    (expenses : List Expense) (settlements : List Settlement) :
    getOptimizedSettlements members expenses settlements
      = greedyLoop
          ((optDebtors members expenses settlements).length
            + (optCreditors members expenses settlements).length)
          (optDebtors members expenses settlements)
          (optCreditors members expenses settlements) := rfl

/-- Claim C8: for every input — including inconsistent ledgers whose debtor
and creditor totals do not cancel — the optimizer's two-pointer loop
terminates: any fuel beyond `debtors.length + creditors.length` leaves the
result unchanged (the loop exits on its own), and at most `members.length`
suggestions are emitted. -/
theorem claim8_optimizer_terminates (members : List Member)
    (expenses : List Expense) (settlements : List Settlement) (extra : Nat) :
    greedyLoop
        ((optDebtors members expenses settlements).length
          + (optCreditors members expenses settlements).length + extra)
        (optDebtors members expenses settlements)
        (optCreditors members expenses settlements)
      = getOptimizedSettlements members expenses settlements ∧
    (getOptimizedSettlements members expenses settlements).length
      ≤ members.length := by
  constructor
  · rw [getOptimizedSettlements_eq]
    exact greedyLoop_fuel_stable _ _ _ le_rfl _ (by omega)
  · rw [getOptimizedSettlements_eq]
    have h1 := greedyLoop_length
      ((optDebtors members expenses settlements).length
        + (optCreditors members expenses settlements).length)
      (optDebtors members expenses settlements)
      (optCreditors members expenses settlements)
    have h2 : (optDebtors members expenses settlements).length
        + (optCreditors members expenses settlements).length
        ≤ (computeNetBalances members expenses settlements).length := by
      unfold optDebtors optCreditors
      rw [List.length_mergeSort, List.length_mergeSort]
      exact filter_neg_pos_length _
    have h3 : (computeNetBalances members expenses settlements).length
        ≤ members.length := List.length_filterMap_le _ _
    omega

/-- Helper: mapping over a `filterMap` whose kept elements inherit a key
from their source yields a sublist of the source keys. -/
lemma filterMap_key_sublist {α β γ : Type} (f : α → Option β) (g : β → γ)
    (k : α → γ) (hpres : ∀ a b, f a = some b → g b = k a) :
    ∀ l : List α, ((l.filterMap f).map g).Sublist (l.map k) := by
  intro l
  induction l with
  | nil => simp
  | cons a l ih =>
    rw [List.filterMap_cons]
    cases hfa : f a with
    | none =>
      rw [List.map_cons]
      exact List.Sublist.cons _ ih
    | some b =>
      rw [List.map_cons, List.map_cons, hpres a b hfa]
      exact List.Sublist.cons₂ _ ih

/-- Helper: the net-balance entries carry the member ids in member-list
order, so their ids form a sublist of the member ids. -/
lemma computeNetBalances_ids_sublist (members : List Member)
    (expenses : List Expense) (settlements : List Settlement) :
    ((computeNetBalances members expenses settlements).map
        NetBalance.memberId).Sublist (members.map Member.id) := by
  apply filterMap_key_sublist
  intro a b hab
  simp only at hab
  split at hab
  · cases hab
    rfl
  · cases hab

/-- Helper: members of the sorted debtor list are net-balance entries with
negative balance. -/
lemma mem_optDebtors {members : List Member} {expenses : List Expense}
    {settlements : List Settlement} {x : NetBalance}
    (hx : x ∈ optDebtors members expenses settlements) :
    x ∈ computeNetBalances members expenses settlements ∧ x.balance < 0 := by
  unfold optDebtors at hx
  rw [List.mem_mergeSort, List.mem_filter] at hx
  exact ⟨hx.1, by simpa using hx.2⟩

/-- Helper: members of the sorted creditor list are net-balance entries with
positive balance. -/
lemma mem_optCreditors {members : List Member} {expenses : List Expense}
    {settlements : List Settlement} {x : NetBalance}
    (hx : x ∈ optCreditors members expenses settlements) :
    x ∈ computeNetBalances members expenses settlements ∧ 0 < x.balance := by
  unfold optCreditors at hx
  rw [List.mem_mergeSort, List.mem_filter] at hx
  exact ⟨hx.1, by simpa using hx.2⟩

/-- Helper: every suggestion the greedy loop emits pays from a debtor-list
id to a creditor-list id. -/
lemma greedyLoop_mem (fuel : Nat) :
    ∀ (ds cs : List NetBalance) (s : DirectedDebt), s ∈ greedyLoop fuel ds cs →
      s.fromId ∈ ds.map NetBalance.memberId ∧
      s.toId ∈ cs.map NetBalance.memberId := by
  induction fuel with
  | zero =>
    intro ds cs s hs
    simp [greedyLoop] at hs
  | succ n ih =>
    intro ds cs s hs
    match ds, cs with
    | [], _ => simp [greedyLoop] at hs
    | _ :: _, [] => simp [greedyLoop] at hs
    | d :: ds', c :: cs' =>
      rw [greedyLoop_succ] at hs
      rcases List.mem_append.mp hs with h | h
      · split at h
        · have := List.mem_singleton.mp h
          subst this
          constructor <;> simp
        · simp at h
      · have hrec := ih _ _ s h
        constructor
        · have h1 := hrec.1
          split at h1
          · simp only [List.map_cons]
            exact List.mem_cons_of_mem _ h1
          · simpa using h1
        · have h2 := hrec.2
          split at h2
          · simp only [List.map_cons]
            exact List.mem_cons_of_mem _ h2
          · simpa using h2

/-- Claim C10: when member identities are distinct, no member appears both
as a payer (`from`) and as a receiver (`to`) in the optimizer's suggested
plan: the rounded net balances are partitioned by sign into debtors and
creditors before matching. -/
theorem claim10_payers_receivers_disjoint (members : List Member)
    (expenses : List Expense) (settlements : List Settlement)
    (hnd : (members.map Member.id).Nodup) :
    ∀ s ∈ getOptimizedSettlements members expenses settlements,
      ∀ t ∈ getOptimizedSettlements members expenses settlements,
        s.fromId ≠ t.toId := by
  intro s hs t ht heq
  rw [getOptimizedSettlements_eq] at hs ht
  have h1 := (greedyLoop_mem _ _ _ s hs).1
  have h2 := (greedyLoop_mem _ _ _ t ht).2
  rw [List.mem_map] at h1 h2
  obtain ⟨d, hd, hdid⟩ := h1
  obtain ⟨c, hc, hcid⟩ := h2
  have hd' := mem_optDebtors hd
  have hc' := mem_optCreditors hc
  have hnbnd : ((computeNetBalances members expenses settlements).map
      NetBalance.memberId).Nodup :=
    (computeNetBalances_ids_sublist _ _ _).nodup hnd
  have hdc : d = c := List.inj_on_of_nodup_map hnbnd hd'.1 hc'.1
    (by rw [hdid, hcid, heq])
  rw [hdc] at hd'
  exact absurd (hd'.2.trans hc'.2) (lt_irrefl _)

/-- Claim C10 witness: on a concrete two-member group the single suggestion
`B pays A 5` has its payer distinct from its receiver, by the disjointness
theorem. -/
theorem claim10_witness :
    (⟨2, "B", 1, "A", 5⟩ : DirectedDebt).fromId
      ≠ (⟨2, "B", 1, "A", 5⟩ : DirectedDebt).toId := by
  have heq : getOptimizedSettlements
      [⟨1, "A", true⟩, ⟨2, "B", true⟩]
      [⟨10, 1, [1, 2], "equal", none, none⟩]
      []
      = [(⟨2, "B", 1, "A", 5⟩ : DirectedDebt)] := by
    simp [getOptimizedSettlements, optDebtors, optCreditors,
      computeNetBalances, calculateExpenseSplit, greedyLoop, round2, jsRound,
      List.mergeSort, List.merge, List.filterMap_cons, List.filter_cons]
    norm_num
    norm_num [List.mergeSort, List.merge, decide_eq_true_eq, greedyLoop,
      round2, jsRound, min_def]
  have hmem : (⟨2, "B", 1, "A", 5⟩ : DirectedDebt) ∈ getOptimizedSettlements
      [⟨1, "A", true⟩, ⟨2, "B", true⟩]
      [⟨10, 1, [1, 2], "equal", none, none⟩]
      [] := by
    rw [heq]
    exact List.mem_singleton_self _
  exact claim10_payers_receivers_disjoint _ _ _ (by decide) _ hmem _ hmem

/-- Helper: the canonical pair key is symmetric. -/
lemma pairKey_comm (a b : Nat) : pairKey a b = pairKey b a := by
  simp [pairKey, min_comm, max_comm]

/-- Helper: the canonical pair key determines the unordered pair. -/
lemma pairKey_eq_iff (x y a b : Nat) :
    pairKey x y = pairKey a b ↔ (x = a ∧ y = b) ∨ (x = b ∧ y = a) := by
  simp [pairKey, Prod.ext_iff]
  omega

/-- The creditors the simplifier's inner loop actually processes for a fixed
debtor and an incoming processed set: non-self pairs not yet processed. -/
def innerKeep (debtor : Member) (processed : List (Nat × Nat)) (c : Member) :
    Bool :=
  decide (c.id ≠ debtor.id) && decide (pairKey debtor.id c.id ∉ processed)

/-- Helper: the loop body skips a self-pair. -/
lemma simplifyStep_skip_self {debts : Nat → Nat → ℚ} {debtor creditor : Member}
    {st : List (Nat × Nat) × List DirectedDebt}
    (h : debtor.id = creditor.id) :
    simplifyStep debts debtor st creditor = st := by
  simp [simplifyStep, h]

/-- Helper: the loop body skips an already processed pair. -/
lemma simplifyStep_skip_processed {debts : Nat → Nat → ℚ}
    {debtor creditor : Member} {st : List (Nat × Nat) × List DirectedDebt}
    (h : ¬debtor.id = creditor.id)
    (h2 : pairKey debtor.id creditor.id ∈ st.1) :
    simplifyStep debts debtor st creditor = st := by
  simp [simplifyStep, h, h2]

/-- Helper: on a fresh non-self pair the loop body marks the pair processed
and appends exactly the §4.4 emission for it. -/
lemma simplifyStep_process {debts : Nat → Nat → ℚ}
    {debtor creditor : Member} {st : List (Nat × Nat) × List DirectedDebt}
    (h : ¬debtor.id = creditor.id)
    (h2 : pairKey debtor.id creditor.id ∉ st.1) :
    simplifyStep debts debtor st creditor
      = (pairKey debtor.id creditor.id :: st.1,
         st.2 ++ (emitPair debts debtor creditor).toList) := by
  simp only [simplifyStep, if_neg h, if_neg h2, emitPair]
  split
  · split <;> simp
  · simp

/-- Helper: the simplifier's inner loop for one debtor appends exactly one
processed key and one optional §4.4 emission for each kept creditor, in
creditor-list order. -/
lemma simplifyInner_spec (debts : Nat → Nat → ℚ) (d : Member) :
    ∀ (cs : List Member) (K : List (Nat × Nat)) (acc : List DirectedDebt),
      (cs.map Member.id).Nodup →
      simplifyInner debts d cs (K, acc)
        = (((cs.filter (innerKeep d K)).map
              (fun c => pairKey d.id c.id)).reverse ++ K,
           acc ++ (cs.filter (innerKeep d K)).filterMap
             (emitPair debts d)) := by
  intro cs
  induction cs with
  | nil =>
    intro K acc _
    simp [simplifyInner]
  | cons c cs ih =>
    intro K acc hnd
    rw [List.map_cons, List.nodup_cons] at hnd
    obtain ⟨hcnot, hndtl⟩ := hnd
    have hstep : simplifyInner debts d (c :: cs) (K, acc)
        = simplifyInner debts d cs (simplifyStep debts d (K, acc) c) := rfl
    by_cases h1 : d.id = c.id
    · rw [hstep, simplifyStep_skip_self h1, ih K acc hndtl]
      have hkeep : innerKeep d K c = false := by simp [innerKeep, h1.symm]
      rw [List.filter_cons, hkeep]
      simp
    · by_cases h2 : pairKey d.id c.id ∈ K
      · rw [hstep, simplifyStep_skip_processed h1 h2, ih K acc hndtl]
        have hkeep : innerKeep d K c = false := by simp [innerKeep, h2]
        rw [List.filter_cons, hkeep]
        simp
      · rw [hstep, simplifyStep_process h1 h2,
          ih (pairKey d.id c.id :: K) (acc ++ (emitPair debts d c).toList)
            hndtl]
        have hfc : cs.filter (innerKeep d (pairKey d.id c.id :: K))
            = cs.filter (innerKeep d K) := by
          apply List.filter_congr
          intro x hx
          by_cases hxd : x.id = d.id
          · simp [innerKeep, hxd]
          · have hxc : x.id ≠ c.id := by
              intro hh
              exact hcnot (hh ▸ List.mem_map_of_mem Member.id hx)
            have hkne : pairKey d.id x.id ≠ pairKey d.id c.id := by
              intro hh
              rcases (pairKey_eq_iff _ _ _ _).mp hh with ⟨-, he2⟩ | ⟨he1, -⟩
              · exact hxc he2
              · exact h1 he1
            simp [innerKeep, hxd, List.mem_cons, hkne]
        rw [hfc]
        have hcd : ¬c.id = d.id := fun hh => h1 hh.symm
        have hkeep : innerKeep d K c = true := by
          simp [innerKeep, hcd, h2]
        rw [List.filter_cons, hkeep]
        cases hec : emitPair debts d c <;>
          simp [List.filterMap_cons, hec, List.append_assoc]

/-- Helper: the simplifier's outer loop, started after some debtors are
`done` (with the processed set holding exactly the keys of every pair
involving a done debtor), emits exactly the §4.4 emissions of the remaining
unordered pairs in enumeration order. -/
lemma simplifyOuter_spec (debts : Nat → Nat → ℚ) (members : List Member)
    (hnd : (members.map Member.id).Nodup) :
    ∀ (ds done : List Member) (K : List (Nat × Nat))
      (acc : List DirectedDebt),
      done ++ ds = members →
      (∀ k, k ∈ K ↔ ∃ x ∈ done, ∃ y ∈ members, x.id ≠ y.id ∧
          k = pairKey x.id y.id) →
      (ds.foldl (fun st debtor => simplifyInner debts debtor members st)
          (K, acc)).2
        = acc ++ (memberPairs ds).filterMap
            (fun p => emitPair debts p.1 p.2) := by
  intro ds
  induction ds with
  | nil =>
    intro done K acc _ _
    simp [memberPairs]
  | cons d ds ih =>
    intro done K acc hsplit hK
    have hidssplit : members.map Member.id
        = done.map Member.id ++ d.id :: ds.map Member.id := by
      rw [← hsplit, List.map_append, List.map_cons]
    obtain ⟨hnd_done, hnd_rest, hdisj⟩ :=
      List.nodup_append.mp (hidssplit ▸ hnd)
    have hd_not_ds : d.id ∉ ds.map Member.id :=
      (List.nodup_cons.mp hnd_rest).1
    have hnd_ds : (ds.map Member.id).Nodup :=
      (List.nodup_cons.mp hnd_rest).2
    have hd_mem : d ∈ members := by
      rw [← hsplit]
      exact List.mem_append_right _ (List.mem_cons_self _ _)
    have hmem_of_ds : ∀ c ∈ ds, c ∈ members := by
      intro c hc
      rw [← hsplit]
      exact List.mem_append_right _ (List.mem_cons_of_mem _ hc)
    -- the pairs the inner loop actually processes for debtor `d`
    have hfilter : members.filter (innerKeep d K) = ds := by
      rw [← hsplit, List.filter_append, List.filter_cons]
      have hdone_nil : done.filter (innerKeep d K) = [] := by
        rw [List.filter_eq_nil_iff]
        intro c hc
        have hcd : c.id ≠ d.id := by
          intro hh
          exact hdisj (List.mem_map_of_mem Member.id hc)
            (hh ▸ List.mem_cons_self _ _)
        have hkmem : pairKey d.id c.id ∈ K := by
          rw [hK]
          exact ⟨c, hc, d, hd_mem, hcd, (pairKey_comm _ _).symm⟩
        simp [innerKeep, hkmem]
      have hself : innerKeep d K d = false := by simp [innerKeep]
      have hds_self : ds.filter (innerKeep d K) = ds := by
        rw [List.filter_eq_self]
        intro c hc
        have hcd : c.id ≠ d.id := by
          intro hh
          exact hd_not_ds (hh ▸ List.mem_map_of_mem Member.id hc)
        have hknot : pairKey d.id c.id ∉ K := by
          rw [hK]
          rintro ⟨x, hx, y, hy, hxy, heqk⟩
          rcases (pairKey_eq_iff _ _ _ _).mp heqk with ⟨he1, -⟩ | ⟨-, he2⟩
          · exact hdisj (List.mem_map_of_mem Member.id hx)
              (by rw [← he1]; exact List.mem_cons_self _ _)
          · exact hdisj (List.mem_map_of_mem Member.id hx)
              (by
                rw [← he2]
                exact List.mem_cons_of_mem _
                  (List.mem_map_of_mem Member.id hc))
        simp [innerKeep, hcd, hknot]
      rw [hdone_nil, hself, hds_self]
      rfl
    rw [List.foldl_cons]
    have hinner := simplifyInner_spec debts d members K acc hnd
    rw [hfilter] at hinner
    rw [hinner]
    have hK' : ∀ k, k ∈ ((ds.map fun c => pairKey d.id c.id).reverse ++ K)
        ↔ ∃ x ∈ done ++ [d], ∃ y ∈ members, x.id ≠ y.id ∧
            k = pairKey x.id y.id := by
      intro k
      rw [List.mem_append, List.mem_reverse, List.mem_map]
      constructor
      · rintro (⟨c, hc, rfl⟩ | hkK)
        · refine ⟨d, List.mem_append_right _ (List.mem_singleton_self _),
            c, hmem_of_ds c hc, ?_, rfl⟩
          intro hh
          exact hd_not_ds (hh ▸ List.mem_map_of_mem Member.id hc)
        · obtain ⟨x, hx, y, hy, hxy, hk⟩ := (hK k).mp hkK
          exact ⟨x, List.mem_append_left _ hx, y, hy, hxy, hk⟩
      · rintro ⟨x, hx, y, hy, hxy, rfl⟩
        rcases List.mem_append.mp hx with hx | hx
        · exact Or.inr ((hK _).mpr ⟨x, hx, y, hy, hxy, rfl⟩)
        · have hxd : x = d := List.mem_singleton.mp hx
          subst hxd
          rw [← hsplit] at hy
          rcases List.mem_append.mp hy with hy | hy
          · refine Or.inr ((hK _).mpr ⟨y, hy, x, hd_mem, hxy.symm, ?_⟩)
            exact pairKey_comm _ _
          · rcases List.mem_cons.mp hy with hy | hy
            · exact absurd (hy ▸ rfl) hxy
            · exact Or.inl ⟨y, hy, rfl⟩
      -- done
    have hsplit' : (done ++ [d]) ++ ds = members := by
      rw [List.append_assoc]
      exact hsplit
    rw [ih (done ++ [d]) _ _ hsplit' hK']
    rw [memberPairs, List.filterMap_append, List.filterMap_map,
      List.append_assoc]
    rfl

/-- Helper: both components of an enumerated pair come from the member
list. -/
lemma memberPairs_mem :
    ∀ (l : List Member) (p : Member × Member), p ∈ memberPairs l →
      p.1 ∈ l ∧ p.2 ∈ l := by
  intro l
  induction l with
  | nil =>
    intro p hp
    simp [memberPairs] at hp
  | cons m ms ih =>
    intro p hp
    rw [memberPairs, List.mem_append] at hp
    rcases hp with h | h
    · obtain ⟨c, hc, rfl⟩ := List.mem_map.mp h
      exact ⟨List.mem_cons_self _ _, List.mem_cons_of_mem _ hc⟩
    · obtain ⟨h1, h2⟩ := ih p h
      exact ⟨List.mem_cons_of_mem _ h1, List.mem_cons_of_mem _ h2⟩

/-- Helper: with distinct member ids, every enumerated pair is a non-self
pair. -/
lemma memberPairs_ne :
    ∀ l : List Member, (l.map Member.id).Nodup →
      ∀ p ∈ memberPairs l, p.1.id ≠ p.2.id := by
  intro l
  induction l with
  | nil =>
    intro _ p hp
    simp [memberPairs] at hp
  | cons m ms ih =>
    intro hnd p hp
    rw [List.map_cons, List.nodup_cons] at hnd
    obtain ⟨hm, hnd'⟩ := hnd
    rw [memberPairs, List.mem_append] at hp
    rcases hp with h | h
    · obtain ⟨c, hc, rfl⟩ := List.mem_map.mp h
      intro hh
      exact hm (hh ▸ List.mem_map_of_mem Member.id hc)
    · exact ih hnd' p h

/-- Helper: with distinct member ids, the canonical keys of the enumerated
unordered pairs are pairwise distinct. -/
lemma memberPairs_keys_nodup :
    ∀ l : List Member, (l.map Member.id).Nodup →
      ((memberPairs l).map (fun p => pairKey p.1.id p.2.id)).Nodup := by
  intro l
  induction l with
  | nil =>
    intro _
    simp [memberPairs]
  | cons m ms ih =>
    intro hnd
    rw [List.map_cons, List.nodup_cons] at hnd
    obtain ⟨hm, hnd'⟩ := hnd
    rw [memberPairs, List.map_append]
    apply List.Nodup.append
    · rw [List.map_map]
      have hmsnd : ms.Nodup := List.Nodup.of_map _ hnd'
      apply List.Nodup.map_on ?_ hmsnd
      intro x hx y hy hxy
      have hxy' : pairKey m.id x.id = pairKey m.id y.id := hxy
      rcases (pairKey_eq_iff _ _ _ _).mp hxy' with ⟨-, he2⟩ | ⟨he1, -⟩
      · exact List.inj_on_of_nodup_map hnd' hx hy he2
      · exact absurd (he1 ▸ List.mem_map_of_mem Member.id hy) hm
    · exact ih hnd'
    · intro k hk1 hk2
      rw [List.map_map] at hk1
      obtain ⟨c, hc, rfl⟩ := List.mem_map.mp hk1
      obtain ⟨p, hp, hpk⟩ := List.mem_map.mp hk2
      obtain ⟨h1, h2⟩ := memberPairs_mem ms p hp
      have hpk' : pairKey p.1.id p.2.id = pairKey m.id c.id := hpk
      rcases (pairKey_eq_iff _ _ _ _).mp hpk' with ⟨he1, -⟩ | ⟨-, he2⟩
      · exact hm (he1 ▸ List.mem_map_of_mem Member.id h1)
      · exact hm (he2 ▸ List.mem_map_of_mem Member.id h2)

/-- Helper: a §4.4 emission for a non-self pair is itself a non-self
debt. -/
lemma emitPair_some_ne {debts : Nat → Nat → ℚ} {a b : Member}
    {dd : DirectedDebt} (hab : a.id ≠ b.id)
    (h : emitPair debts a b = some dd) : dd.fromId ≠ dd.toId := by
  simp only [emitPair] at h
  split at h
  · split at h
    · cases h
      exact hab
    · cases h
      exact hab.symm
  · cases h

/-- Helper: a §4.4 emission's unordered key is its pair's key. -/
lemma emitPair_some_key {debts : Nat → Nat → ℚ} {a b : Member}
    {dd : DirectedDebt} (h : emitPair debts a b = some dd) :
    pairKey dd.fromId dd.toId = pairKey a.id b.id := by
  simp only [emitPair] at h
  split at h
  · split at h
    · cases h
      rfl
    · cases h
      exact pairKey_comm _ _
  · cases h

/-- Claim C2: with distinct member identities, `getDetailedDebts` behaves
exactly as the §4.3 matrix build composed with the §4.4 simplifier — one
optional netted emission per unordered member pair considered exactly once
(nothing when `|net| ≤ 0.01`, else one debt of `round2 |net|` toward the net
creditor) — and its output has no self-pairs and no duplicate unordered
pairs. -/
theorem claim2_detailed_debts_spec (members : List Member)
    (expenses : List Expense) (settlements : List Settlement)
    (hnd : (members.map Member.id).Nodup) :
    getDetailedDebts members expenses settlements
      = specSimplifiedDebts members expenses settlements ∧
    (getDetailedDebts members expenses settlements).all
        (fun dd => dd.fromId != dd.toId) = true ∧
    ((getDetailedDebts members expenses settlements).map
        (fun dd => pairKey dd.fromId dd.toId)).Nodup := by
  have h1 : getDetailedDebts members expenses settlements
      = specSimplifiedDebts members expenses settlements := by
    have houter := simplifyOuter_spec (buildDebtMatrix expenses settlements)
      members hnd members [] [] [] rfl (by intro k; simp)
    simpa [getDetailedDebts, specSimplifiedDebts] using houter
  refine ⟨h1, ?_, ?_⟩
  · rw [List.all_eq_true]
    intro dd hdd
    rw [h1] at hdd
    obtain ⟨p, hp, hemit⟩ := List.mem_filterMap.mp hdd
    have hne := memberPairs_ne members hnd p hp
    simpa [bne_iff_ne] using emitPair_some_ne hne hemit
  · rw [h1]
    have hsub := filterMap_key_sublist
      (fun p : Member × Member =>
        emitPair (buildDebtMatrix expenses settlements) p.1 p.2)
      (fun dd => pairKey dd.fromId dd.toId)
      (fun p => pairKey p.1.id p.2.id)
      (fun p dd h => emitPair_some_key h)
      (memberPairs members)
    exact hsub.nodup (memberPairs_keys_nodup members hnd)

/-- Claim C2 witness: the equivalence and pair invariants instantiated on a
concrete two-member group with one equal-split expense. -/
theorem claim2_witness :
    getDetailedDebts [⟨1, "A", true⟩, ⟨2, "B", true⟩]
        [⟨10, 1, [1, 2], "equal", none, none⟩] []
      = specSimplifiedDebts [⟨1, "A", true⟩, ⟨2, "B", true⟩]
          [⟨10, 1, [1, 2], "equal", none, none⟩] [] ∧
    (getDetailedDebts [⟨1, "A", true⟩, ⟨2, "B", true⟩]
        [⟨10, 1, [1, 2], "equal", none, none⟩] []).all
        (fun dd => dd.fromId != dd.toId) = true ∧
    ((getDetailedDebts [⟨1, "A", true⟩, ⟨2, "B", true⟩]
        [⟨10, 1, [1, 2], "equal", none, none⟩] []).map
        (fun dd => pairKey dd.fromId dd.toId)).Nodup :=
  claim2_detailed_debts_spec _ _ _ (by decide)

end WeSplit
